import Mathlib

/-!
Shallow embedding of the RISC Zero zkVM guest environment module
(`risc0/zkvm/src/guest/env.rs`): the proof-composition tracker
(`verify`, `verify_integrity`), the segment lifecycle
(`init` / `finalize` / `pause`), the journal writer hook, and the
word-aligned host-channel codec (`read_bytes_all`, `read_padded_bytes`,
`write_padded_bytes`).

Cryptographic hashing (SHA-256) and the digest accumulators are modelled
symbolically: `Digest` is a free term algebra whose constructors record
exactly what was hashed, so distinct preimages yield distinct digests
(the standard collision-free model of a cryptographic hash).

The risc0 core types (`Digest`, `ExitCode`, `MaybePruned`, `Output`,
`ReceiptClaim`, `Assumptions`) are declared in the `risc0-zkvm` crate
outside the sources at hand; their operations used by `env.rs` are
modelled from the spec and are marked as such in their doc comments.
-/

namespace Risc0Env

/-- `WORD_SIZE` from the risc0 platform crate: 4 bytes per machine word. -/
def WORD_SIZE : Nat := 4

/-- Modelled from the spec: a `Digest` is a fixed-size (8-word / 32-byte)
cryptographic hash value with a well-known zero sentinel. We model digests
as a free term algebra recording what was hashed: `sha bs` is the SHA-256
digest of a byte stream, `outputHash j a` the digest of an
`Output \x7bjournal, assumptions\x7d` structure, `claimHash input pre post
sys usr out` the digest of a `ReceiptClaim`, and `addAssumption acc d` the
sequential accumulator digest obtained by appending claim digest `d` to the
running assumptions digest `acc`. Constructor freeness models
collision-resistance and order-sensitivity of the hash. -/
inductive Digest : Type where
  | zero : Digest
  | ofWords : List Nat → Digest
  | sha : List Nat → Digest
  | outputHash : Digest → Digest → Digest
  | claimHash : Digest → Digest → Digest → Nat → Nat → Digest → Digest
  | addAssumption : Digest → Digest → Digest
  deriving DecidableEq

/-- Modelled from the spec: `ExitCode` is the tagged outcome of an execution
segment, `Halted(user_code)`, `Paused(user_code)` or `SystemSplit`. -/
inductive ExitCode : Type where
  | Halted : Nat → ExitCode
  | Paused : Nat → ExitCode
  | SystemSplit : ExitCode
  deriving DecidableEq

/-- Modelled from the spec: error for an invalid raw `(kind, code)` exit-code
pair, carrying the offending pair (`InvalidExitCodeError(u32, u32)`). -/
structure InvalidExitCodeError : Type where
  sys : Nat
  user : Nat
  deriving DecidableEq

/-- Modelled from the spec: `ExitCode::from_pair` decodes a raw
`(kind, code)` pair; kind 0 is `Halted`, 1 is `Paused`, 2 is `SystemSplit`,
and any other kind fails with `InvalidExitCodeError`. -/
def ExitCode.from_pair (sys user : Nat) : Except InvalidExitCodeError ExitCode :=
  match sys with
  | 0 => .ok (.Halted user)
  | 1 => .ok (.Paused user)
  | 2 => .ok .SystemSplit
  | _ => .error ⟨sys, user⟩

/-- Modelled from the spec: `ExitCode::into_pair`, the raw `(kind, code)`
encoding used when hashing a `ReceiptClaim`. -/
def ExitCode.into_pair : ExitCode → Nat × Nat
  | .Halted user => (0, user)
  | .Paused user => (1, user)
  | .SystemSplit => (2, 0)

/-- Modelled from the spec: `ExitCode::is_ok` holds exactly for the exit
codes admitted by `verify`, namely `Halted(0)` and `Paused(0)`. -/
def ExitCode.is_ok : ExitCode → Bool
  | .Halted 0 => true
  | .Paused 0 => true
  | _ => false

/-- Modelled from the spec: a `MaybePruned` value is either present in full
(`value`) or replaced by its digest alone (`pruned`). -/
inductive MaybePruned (α : Type) : Type where
  | value : α → MaybePruned α
  | pruned : Digest → MaybePruned α
  deriving DecidableEq

/-- Modelled from the spec: accessing the underlying value of a pruned
`MaybePruned` fails with a `PrunedValueError` carrying the digest. -/
structure PrunedValueError : Type where
  digest : Digest
  deriving DecidableEq

/-- Modelled from the spec: `MaybePruned::as_value` returns the contained
value, or a `PrunedValueError` when only the digest is available. -/
def MaybePruned.as_value {α : Type} : MaybePruned α → Except PrunedValueError α
  | .value v => .ok v
  | .pruned d => .error ⟨d⟩

/-- Modelled from the spec: `digest()` of a `MaybePruned` given the digest
function of the payload type; identical whether or not the value is pruned. -/
def MaybePruned.digestWith {α : Type} (f : α → Digest) : MaybePruned α → Digest
  | .value v => f v
  | .pruned d => d

/-- Modelled from the spec: the digest of an `Assumptions` list of claim
digests is the sequential accumulator fold, starting from the zero digest
and appending in order. -/
def assumptionsListDigest (l : List Digest) : Digest :=
  l.foldl Digest.addAssumption Digest.zero

/-- Modelled from the spec: `Output` is a pair of the (possibly pruned)
journal byte stream and the (possibly pruned) assumptions list. The journal
payload is its byte list; the assumptions payload is its list of claim
digests. -/
structure Output : Type where
  journal : MaybePruned (List Nat)
  assumptions : MaybePruned (List Digest)
  deriving DecidableEq

/-- Modelled from the spec: the digest of an `Output` structure, computed
from the journal digest and the assumptions digest. -/
def Output.digest (o : Output) : Digest :=
  .outputHash (o.journal.digestWith Digest.sha)
    (o.assumptions.digestWith assumptionsListDigest)

/-- Modelled from the spec: the digest of an `Option<Output>`; `None`
digests to the zero sentinel, `Some` to the output's digest. -/
def optionOutputDigest : Option Output → Digest
  | none => .zero
  | some o => o.digest

/-- Modelled from the spec: `MaybePruned<Option<Output>>::is_none` — true
when the output is known absent, i.e. a present `None` or a pruned digest
equal to the zero sentinel (the digest of `None`). -/
def MaybePruned.is_none (m : MaybePruned (Option Output)) : Bool :=
  match m with
  | .value (some _) => false
  | .value none => true
  | .pruned d => d == .zero

/-- Modelled from the spec: `MaybePruned<Assumptions>::is_empty` — a present
list is empty when it has no elements, a pruned one when its digest is the
zero sentinel. -/
def MaybePruned.is_empty (m : MaybePruned (List Digest)) : Bool :=
  match m with
  | .value l => l.isEmpty
  | .pruned d => d == .zero

/-- Modelled from the spec: `ReceiptClaim`, the canonical statement a
receipt attests to. The `pre` and `post` system states are represented by
their digests (env.rs only ever constructs them pruned, and the digest of a
`MaybePruned` is the same in both states). -/
structure ReceiptClaim : Type where
  pre : MaybePruned Digest
  post : MaybePruned Digest
  exit_code : ExitCode
  input : Digest
  output : MaybePruned (Option Output)
  deriving DecidableEq

/-- Modelled from the spec: the digest of a `ReceiptClaim`, a structural
hash over the input digest, pre and post state digests, the raw exit-code
pair and the output digest. -/
def ReceiptClaim.digest (c : ReceiptClaim) : Digest :=
  .claimHash c.input (c.pre.digestWith id) (c.post.digestWith id)
    c.exit_code.into_pair.1 c.exit_code.into_pair.2
    (c.output.digestWith optionOutputDigest)

/-- The process-wide mutable state of `env.rs`: the `HASHER` once-cell (a
SHA-256 journal hasher, modelled by the byte stream absorbed so far; `none`
when unset or taken), the running `ASSUMPTIONS_DIGEST` (always held pruned
in this module, so modelled by its digest; initially `Digest::ZERO`), and
the `MEMORY_IMAGE_ENTROPY` words. -/
structure EnvState : Type where
  hasher : Option (List Nat)
  assumptions : Digest
  entropy : List Nat
  deriving DecidableEq

/-- `init`: sets the `HASHER` once-cell to a fresh SHA-256 hasher (the
`unwrap` panics if the cell is already set, modelled by `none`) and fills
`MEMORY_IMAGE_ENTROPY` with host-provided randomness `rand`. The running
assumptions digest is not touched. -/
def init (rand : List Nat) (st : EnvState) : Option EnvState :=
  match st.hasher with
  | some _ => none
  | none => some { hasher := some [], assumptions := st.assumptions, entropy := rand }

/-- Host calls issued by the lifecycle and composition operations, with the
data words they carry. -/
inductive HostCall : Type where
  | verifyIntegrityCall : Digest → HostCall
  | haltCall : Nat → Digest → HostCall
  | pauseCall : Nat → Digest → HostCall
  deriving DecidableEq

/-- `finalize`: takes the `HASHER` out of its cell (panics when absent,
modelled by `none`), finalizes it into the journal digest, builds the
`Output` from the journal digest and the current assumptions digest, and
issues `sys_halt` or `sys_pause` carrying the user exit code and the
output's digest. The assumptions digest itself is left in place. -/
def finalize (halt : Bool) (user_exit : Nat) (st : EnvState) :
    Option (EnvState × HostCall) :=
  match st.hasher with
  | none => none
  | some bytes =>
    let journal_digest := Digest.sha bytes
    let output : Output :=
      { journal := .pruned journal_digest, assumptions := .pruned st.assumptions }
    some ({ st with hasher := none },
      if halt then .haltCall user_exit output.digest
      else .pauseCall user_exit output.digest)

/-- `pause`: `finalize(halt = false)` followed by `init` with fresh host
randomness. -/
def pause (exit_code : Nat) (rand : List Nat) (st : EnvState) :
    Option (EnvState × HostCall) :=
  match finalize false exit_code st with
  | none => none
  | some (st1, call) =>
    match init rand st1 with
    | none => none
    | some st2 => some (st2, call)

/-- The journal `FdWriter` hook: every byte buffer written to the journal
file descriptor is also absorbed into the `HASHER` (the
`unwrap_unchecked` is undefined behaviour when the hasher is unset,
modelled by `none`). `commit_slice` forwards the bytes to the host and runs
this hook. -/
def commit_slice (bytes : List Nat) (st : EnvState) : Option EnvState :=
  match st.hasher with
  | none => none
  | some h => some { st with hasher := some (h ++ bytes) }

/-- Sequence of `commit_slice` calls, left to right. -/
def commitAll (slices : List (List Nat)) (st : EnvState) : Option EnvState :=
  match slices with
  | [] => some st
  | s :: rest =>
    match commit_slice s st with
    | none => none
    | some st1 => commitAll rest st1

/-- Error returned by a call to `verify`: the host responded to
`sys_verify` with an invalid exit code. -/
inductive VerifyError : Type where
  | BadExitCodeResponse : InvalidExitCodeError → VerifyError
  deriving DecidableEq

/-- `verify(image_id, journal)`: hashes the journal bytes, performs the
`sys_verify` host call (whose response — the post-state digest and the raw
exit-code word — is passed here as arguments), decodes the exit code with
user code fixed to 0, rejects any decoding that is not `Halted(0)` or
`Paused(0)` with `BadExitCodeResponse`, and otherwise appends the digest of
the synthesized assumption `ReceiptClaim` to the running assumptions
digest. -/
def verify (image_id : Digest) (journal : List Nat) (post_state_digest : Digest)
    (sys_exit_code : Nat) (st : EnvState) : Except VerifyError Unit × EnvState :=
  let journal_digest := Digest.sha journal
  match ExitCode.from_pair sys_exit_code 0 with
  | .error e => (.error (.BadExitCodeResponse e), st)
  | .ok exit_code =>
    if !exit_code.is_ok then
      (.error (.BadExitCodeResponse ⟨sys_exit_code, 0⟩), st)
    else
      let assumption_claim : ReceiptClaim :=
        { pre := .pruned image_id,
          post := .pruned post_state_digest,
          exit_code := exit_code,
          input := .zero,
          output := .value (some
            { journal := .pruned journal_digest,
              assumptions := .pruned .zero }) }
      (.ok (), { st with assumptions :=
        Digest.addAssumption st.assumptions assumption_claim.digest })

/-- Error returned by a call to `verify_integrity`: a non-empty assumptions
list on the claim, or a pruned, non-zero output that cannot be inspected. -/
inductive VerifyIntegrityError : Type where
  | NonEmptyAssumptionsList : VerifyIntegrityError
  | PrunedValueError : PrunedValueError → VerifyIntegrityError
  deriving DecidableEq

/-- The `assumptions_empty` computation at the top of `verify_integrity`:
`claim.output.is_none() || claim.output.as_value()?.as_ref().map_or(true,
|output| output.assumptions.is_empty())`, with the `?` propagating a
`PrunedValueError`. -/
def ReceiptClaim.assumptionsEmptyCheck (claim : ReceiptClaim) :
    Except PrunedValueError Bool :=
  if claim.output.is_none then .ok true
  else
    match claim.output.as_value with
    | .error e => .error e
    | .ok o =>
      .ok (match o with
        | none => true
        | some output => output.assumptions.is_empty)

/-- `verify_integrity(claim)`: checks that the claim's assumptions list is
empty (else `NonEmptyAssumptionsList`, propagating `PrunedValueError` from
an uninspectable pruned output), then issues the `sys_verify_integrity`
host call with the claim digest and appends that digest to the running
assumptions digest. Returns the result, the state after the call, and the
host calls made. -/
def verify_integrity (claim : ReceiptClaim) (st : EnvState) :
    Except VerifyIntegrityError Unit × EnvState × List HostCall :=
  match claim.assumptionsEmptyCheck with
  | .error e => (.error (.PrunedValueError e), st, [])
  | .ok false => (.error .NonEmptyAssumptionsList, st, [])
  | .ok true =>
    let claim_digest := claim.digest
    (.ok (),
      { st with assumptions := Digest.addAssumption st.assumptions claim_digest },
      [.verifyIntegrityCall claim_digest])

/-- Modelled from the spec: errors of the structured serialization
collaborator surfaced by the word channel; `DeserializeUnexpectedEnd` is
the unexpected-end failure raised on an input underrun. -/
inductive SerdeError : Type where
  | DeserializeUnexpectedEnd : SerdeError
  deriving DecidableEq

/-- Modelled from the spec: the read side of a numbered host channel, seen
from the guest. `data` is the byte stream the host still has to deliver;
`chunks` schedules how many bytes the host chooses to return on each
successive `sys_read` call (allowing short reads); once the schedule is
exhausted the host serves every request in full. A `sys_read` never
returns more than requested nor more than remains. -/
structure ReadChannel : Type where
  data : List Nat
  chunks : List Nat
  deriving DecidableEq

/-- Modelled from the spec: one raw `sys_read` host call requesting `n`
bytes; returns the bytes transferred and the advanced channel. -/
def sys_read (ch : ReadChannel) (n : Nat) : List Nat × ReadChannel :=
  match ch.chunks with
  | [] =>
    let k := min n ch.data.length
    (ch.data.take k, ⟨ch.data.drop k, []⟩)
  | c :: cs =>
    let k := min n (min c ch.data.length)
    (ch.data.take k, ⟨ch.data.drop k, cs⟩)

/-- `FdReader::read_bytes_all`: like `read_bytes`, but retries short reads,
filling the request completely or stopping at the first `sys_read` that
returns zero bytes (end of stream). Returns the bytes read and the final
channel. -/
def read_bytes_all (ch : ReadChannel) (n : Nat) : List Nat × ReadChannel :=
  if _hn : n = 0 then ([], ch)
  else
    match sys_read ch n with
    | (bs, ch1) =>
      if _hb : bs.length = 0 then ([], ch1)
      else
        let q := read_bytes_all ch1 (n - bs.length)
        (bs ++ q.1, q.2)
termination_by n
decreasing_by omega

/-- `FdReader::read_padded_bytes` (the `WordRead` impl): reads exactly `n`
bytes, then consumes and discards the zero padding up to the next word
boundary; an underrun on either read is a `DeserializeUnexpectedEnd`.
Returns the payload bytes and the final channel. -/
def read_padded_bytes (ch : ReadChannel) (n : Nat) :
    Except SerdeError (List Nat × ReadChannel) :=
  let p := read_bytes_all ch n
  if p.1.length ≠ n then .error .DeserializeUnexpectedEnd
  else
    let unaligned := n % WORD_SIZE
    if unaligned ≠ 0 then
      let pad_bytes := WORD_SIZE - unaligned
      let q := read_bytes_all p.2 pad_bytes
      if q.1.length ≠ pad_bytes then .error .DeserializeUnexpectedEnd
      else .ok (p.1, q.2)
    else .ok (p.1, p.2)

/-- `FdWriter::write_bytes`: a raw `sys_write` host call is fire-and-forget,
so the write side of a channel is modelled by the byte stream emitted to
the host; `write_bytes` appends the buffer to it. -/
def write_bytes (out : List Nat) (bytes : List Nat) : List Nat :=
  out ++ bytes

/-- `FdWriter::write_padded_bytes` (the `WordWrite` impl): writes the bytes,
then, when the length is not word aligned, writes zero bytes up to the next
word boundary. -/
def write_padded_bytes (out : List Nat) (bytes : List Nat) : List Nat :=
  let out1 := write_bytes out bytes
  let unaligned := bytes.length % WORD_SIZE
  if unaligned ≠ 0 then
    write_bytes out1 (List.replicate (WORD_SIZE - unaligned) 0)
  else out1

/-- A sample unconditional claim used in concrete instantiations: no output,
given exit code, all other fields zero. -/
def sampleClaim (ec : ExitCode) : ReceiptClaim :=
  { pre := .pruned .zero, post := .pruned .zero, exit_code := ec,
    input := .zero, output := .value none }

/-- A sample claim whose output is present with a non-zero (pruned)
assumptions digest. -/
def sampleConditionalClaim : ReceiptClaim :=
  { pre := .pruned .zero, post := .pruned .zero, exit_code := .Halted 0,
    input := .zero,
    output := .value (some
      { journal := .pruned .zero, assumptions := .pruned (.sha []) }) }

/-- A sample claim whose output is a pruned placeholder with a non-zero
digest. -/
def samplePrunedOutputClaim : ReceiptClaim :=
  { pre := .pruned .zero, post := .pruned .zero, exit_code := .Halted 0,
    input := .zero, output := .pruned (.sha []) }

/-- A sample initialized environment state with an empty journal hasher and
zero assumptions digest. -/
def sampleState : EnvState := ⟨some [], .zero, []⟩

/-- The result component of `verify_integrity` depends only on the claim,
never on the environment state. -/
theorem verify_integrity_fst_eq (claim : ReceiptClaim) (st st' : EnvState) :
    (verify_integrity claim st).1 = (verify_integrity claim st').1 := by
  unfold verify_integrity
  cases claim.assumptionsEmptyCheck with
  | error e => rfl
  | ok b => cases b <;> rfl

/-- When `verify_integrity` succeeds, the new state is the old one with the
claim digest appended to the running assumptions digest. -/
theorem verify_integrity_ok_state (claim : ReceiptClaim) (st : EnvState)
    (h : (verify_integrity claim st).1 = .ok ()) :
    (verify_integrity claim st).2.1 =
      { st with assumptions := Digest.addAssumption st.assumptions claim.digest } := by
  cases hc : claim.assumptionsEmptyCheck with
  | error e => simp [verify_integrity, hc] at h
  | ok b =>
    cases b
    · simp [verify_integrity, hc] at h
    · simp [verify_integrity, hc]

/-- C1: for every raw exit-code word the host returns to a `verify` call,
if the decoded exit code is not `Halted(0)` and not `Paused(0)` (including
`SystemSplit` and any undecodable encoding), then `verify` returns an error
wrapping `BadExitCodeResponse` rather than `Ok`. -/
theorem verify_bad_exit_code (img : Digest) (jb : List Nat) (post : Digest)
    (w : Nat) (st : EnvState)
    (h : ∀ ec, ExitCode.from_pair w 0 = .ok ec → ec.is_ok = false) :
    ∃ e, (verify img jb post w st).1 = .error (VerifyError.BadExitCodeResponse e) := by
  unfold verify
  cases hfp : ExitCode.from_pair w 0 with
  | error e => exact ⟨e, by simp [hfp]⟩
  | ok ec => exact ⟨⟨w, 0⟩, by simp [hfp, h ec hfp]⟩

/-- Witness for C1: the raw exit-code word 2 decodes to `SystemSplit`,
and `verify` rejects it with `BadExitCodeResponse`. -/
theorem verify_bad_exit_code_witness :
    ∃ e, (verify .zero [] .zero 2 sampleState).1 =
      .error (VerifyError.BadExitCodeResponse e) :=
  verify_bad_exit_code .zero [] .zero 2 sampleState
    (by intro ec hec; simp [ExitCode.from_pair] at hec; subst hec; rfl)

/-- C10: when `verify` returns an error, the running assumptions digest
(and the rest of the environment state) is left unchanged: `verify` mutates
the accumulator only on the success path. -/
theorem verify_error_leaves_state (img : Digest) (jb : List Nat) (post : Digest)
    (w : Nat) (st : EnvState) (e : VerifyError)
    (h : (verify img jb post w st).1 = .error e) :
    (verify img jb post w st).2 = st := by
  cases hfp : ExitCode.from_pair w 0 with
  | error e2 => simp [verify, hfp]
  | ok ec =>
    by_cases hok : ec.is_ok = true
    · simp [verify, hfp, hok] at h
    · simp only [Bool.not_eq_true] at hok
      simp [verify, hfp, hok]

/-- Witness for C10: at raw exit-code word 2 the call fails and the state
is returned untouched. -/
theorem verify_error_leaves_state_witness :
    (verify .zero [] .zero 2 sampleState).2 = sampleState :=
  verify_error_leaves_state .zero [] .zero 2 sampleState
    (.BadExitCodeResponse ⟨2, 0⟩) rfl

/-- C2: when the host answers the `sys_verify` call with post-state digest
`P` and an exit-code word decoding to `Halted(0)`, `verify image_id = Z,
journal = J` succeeds and appends to the running assumptions digest exactly
the digest of `ReceiptClaim \x7bpre: Z, post: P, exit_code: Halted(0),
input: ZERO, output: Some(Output \x7bjournal: hash(J),
assumptions: ZERO\x7d)\x7d`. -/
theorem verify_halted_appends_claim (Z : Digest) (J : List Nat) (P : Digest)
    (w : Nat) (st : EnvState)
    (h : ExitCode.from_pair w 0 = .ok (.Halted 0)) :
    verify Z J P w st =
      (.ok (),
        { st with
            assumptions :=
              Digest.addAssumption st.assumptions
                (ReceiptClaim.digest
                  { pre := .pruned Z, post := .pruned P, exit_code := .Halted 0,
                    input := .zero,
                    output := .value (some
                      { journal := .pruned (.sha J),
                        assumptions := .pruned .zero }) }) }) := by
  unfold verify
  rw [h]
  rfl

/-- Witness for C2: the raw exit-code word 0 decodes to `Halted(0)` and the
synthesized claim digest is appended to the accumulator. -/
theorem verify_halted_appends_claim_witness :
    verify .zero [] .zero 0 sampleState =
      (.ok (), ⟨some [], Digest.addAssumption .zero
        (ReceiptClaim.digest
          { pre := .pruned .zero, post := .pruned .zero, exit_code := .Halted 0,
            input := .zero,
            output := .value (some
              { journal := .pruned (.sha []),
                assumptions := .pruned .zero }) }), []⟩) :=
  verify_halted_appends_claim .zero [] .zero 0 sampleState rfl

/-- C3: `verify_integrity` on a claim whose output is present with a
non-empty assumptions digest fails with `NonEmptyAssumptionsList`, leaving
the running assumptions digest unchanged and making no host call; when the
output is absent or its assumptions digest is empty, the check passes, the
`sys_verify_integrity` call is made and the claim digest is appended. -/
theorem verify_integrity_gate (claim : ReceiptClaim) (st : EnvState) :
    (∀ o, claim.output = .value (some o) → o.assumptions.is_empty = false →
        verify_integrity claim st = (.error .NonEmptyAssumptionsList, st, [])) ∧
    ((claim.output.is_none = true ∨
        ∃ o, claim.output = .value (some o) ∧ o.assumptions.is_empty = true) →
      verify_integrity claim st =
        (.ok (),
          { st with assumptions := Digest.addAssumption st.assumptions claim.digest },
          [.verifyIntegrityCall claim.digest])) := by
  constructor
  · intro o ho hne
    have hchk : claim.assumptionsEmptyCheck = .ok false := by
      unfold ReceiptClaim.assumptionsEmptyCheck
      rw [ho]
      simp [MaybePruned.is_none, MaybePruned.as_value, hne]
    simp [verify_integrity, hchk]
  · intro hcase
    have hchk : claim.assumptionsEmptyCheck = .ok true := by
      rcases hcase with hnone | ⟨o, ho, hemp⟩
      · unfold ReceiptClaim.assumptionsEmptyCheck
        simp [hnone]
      · unfold ReceiptClaim.assumptionsEmptyCheck
        rw [ho]
        simp [MaybePruned.is_none, MaybePruned.as_value, hemp]
    simp [verify_integrity, hchk]

/-- Witness for C3: a claim with a non-zero pruned assumptions digest is
rejected without touching the state, and a claim with no output passes with
its digest appended. -/
theorem verify_integrity_gate_witness :
    verify_integrity sampleConditionalClaim sampleState =
      (.error .NonEmptyAssumptionsList, sampleState, []) ∧
    verify_integrity (sampleClaim (.Halted 0)) sampleState =
      (.ok (), ⟨some [], Digest.addAssumption .zero
          (ReceiptClaim.digest (sampleClaim (.Halted 0))), []⟩,
        [.verifyIntegrityCall (ReceiptClaim.digest (sampleClaim (.Halted 0)))]) :=
  ⟨(verify_integrity_gate sampleConditionalClaim sampleState).1 _ rfl rfl,
    (verify_integrity_gate (sampleClaim (.Halted 0)) sampleState).2 (Or.inl rfl)⟩

/-- C6: on a claim whose output is a pruned placeholder with a non-zero
digest, `verify_integrity` propagates `PrunedValueError` from the attempted
inspection, makes no host call and leaves the state unchanged. -/
theorem verify_integrity_pruned_output (claim : ReceiptClaim) (st : EnvState)
    (d : Digest) (h1 : claim.output = .pruned d) (h2 : d ≠ .zero) :
    verify_integrity claim st =
      (.error (.PrunedValueError ⟨d⟩), st, []) := by
  have hchk : claim.assumptionsEmptyCheck = .error ⟨d⟩ := by
    unfold ReceiptClaim.assumptionsEmptyCheck
    rw [h1]
    simp [MaybePruned.is_none, MaybePruned.as_value, h2]
  simp [verify_integrity, hchk]

/-- Witness for C6: a pruned output with digest `sha []` (non-zero) yields
`PrunedValueError` and no host call. -/
theorem verify_integrity_pruned_output_witness :
    verify_integrity samplePrunedOutputClaim sampleState =
      (.error (.PrunedValueError ⟨.sha []⟩), sampleState, []) :=
  verify_integrity_pruned_output samplePrunedOutputClaim sampleState (.sha [])
    rfl (by decide)

/-- C4: for any two claims `A`, `B` that pass the integrity precondition
and have distinct digests, running `verify_integrity A` then
`verify_integrity B` from the same starting state yields a final
assumptions digest different from running them in the opposite order: the
accumulator is a function of the full ordered call sequence. -/
theorem verify_integrity_order (A B : ReceiptClaim) (st : EnvState)
    (hA : (verify_integrity A st).1 = .ok ())
    (hB : (verify_integrity B st).1 = .ok ())
    (hd : A.digest ≠ B.digest) :
    ((verify_integrity B (verify_integrity A st).2.1).2.1).assumptions ≠
      ((verify_integrity A (verify_integrity B st).2.1).2.1).assumptions := by
  have hB2 : (verify_integrity B (verify_integrity A st).2.1).1 = .ok () := by
    rw [verify_integrity_fst_eq B _ st]; exact hB
  have hA2 : (verify_integrity A (verify_integrity B st).2.1).1 = .ok () := by
    rw [verify_integrity_fst_eq A _ st]; exact hA
  rw [verify_integrity_ok_state B _ hB2, verify_integrity_ok_state A _ hA2,
    verify_integrity_ok_state A st hA, verify_integrity_ok_state B st hB]
  simp only [Digest.addAssumption.injEq, ne_eq, not_and]
  intro _ hcontra
  exact hd hcontra.symm

/-- Witness for C4: the `Halted(0)` and `Paused(0)` sample claims have
distinct digests and the two call orders give distinct accumulators. -/
theorem verify_integrity_order_witness :
    ((verify_integrity (sampleClaim (.Paused 0))
        (verify_integrity (sampleClaim (.Halted 0)) sampleState).2.1).2.1).assumptions ≠
      ((verify_integrity (sampleClaim (.Halted 0))
        (verify_integrity (sampleClaim (.Paused 0)) sampleState).2.1).2.1).assumptions :=
  verify_integrity_order (sampleClaim (.Halted 0)) (sampleClaim (.Paused 0))
    sampleState rfl rfl (by decide)

/-- C5 counterexample: the claim says that after `pause(code)` the running
assumptions digest is reset to its empty value; concretely, starting from a
state whose assumptions digest is non-zero, `pause` returns and the
assumptions digest is still the old non-zero value, not `Digest.zero`. -/
theorem pause_keeps_assumptions_cex :
    (pause 0 [] ⟨some [7], Digest.addAssumption .zero (.sha [1]), []⟩).map
        (fun p => p.1.assumptions) =
      some (Digest.addAssumption .zero (.sha [1])) ∧
    Digest.addAssumption Digest.zero (Digest.sha [1]) ≠ Digest.zero :=
  ⟨rfl, by decide⟩

/-- C5 (amended): after `pause(code)` returns, the journal hasher is reset
to its empty value for the next segment while the running assumptions
digest is left unchanged (it is not reset), and the output digest passed to
the pause host call is computed from the journal and assumptions state as
it was before the reset. -/
theorem pause_resets_journal_only (exit_code : Nat) (rand bs : List Nat)
    (a : Digest) (e : List Nat) :
    pause exit_code rand ⟨some bs, a, e⟩ =
      some (⟨some [], a, rand⟩,
        .pauseCall exit_code (.outputHash (.sha bs) a)) := rfl

/-- Sequencing `commit_slice` calls appends the concatenation of the slices
to the journal hasher. -/
theorem commitAll_flatten (ss : List (List Nat)) (h : List Nat) (a : Digest)
    (e : List Nat) :
    commitAll ss ⟨some h, a, e⟩ = some ⟨some (h ++ ss.flatten), a, e⟩ := by
  induction ss generalizing h with
  | nil => simp [commitAll]
  | cons s rest ih => simp [commitAll, commit_slice, ih]

/-- C7: committing byte slices `s1, …, sn` to the journal after `init` and
then finalizing yields a journal digest equal to the hash of the
concatenation `concat(s1..sn)` (carried inside the output digest of the
halt host call), and, the hash being order-sensitive, any slice sequence
with a different concatenation yields a different journal digest. -/
theorem journal_accounting (ss : List (List Nat)) (a : Digest) (e : List Nat)
    (u : Nat) :
    commitAll ss ⟨some [], a, e⟩ = some ⟨some ss.flatten, a, e⟩ ∧
    finalize true u ⟨some ss.flatten, a, e⟩ =
      some (⟨none, a, e⟩, .haltCall u (.outputHash (.sha ss.flatten) a)) ∧
    ∀ ss2 : List (List Nat), ss2.flatten ≠ ss.flatten →
      Digest.sha ss2.flatten ≠ Digest.sha ss.flatten := by
  refine ⟨by simpa using commitAll_flatten ss [] a e, rfl, ?_⟩
  intro ss2 hne hcontra
  exact hne (Digest.sha.inj hcontra)

/-- Witness for C7: committing `[1]` then `[2]` accumulates the bytes
`[1, 2]`, and the reversed order hashes to a different digest. -/
theorem journal_accounting_witness :
    commitAll [[1], [2]] ⟨some [], .zero, []⟩ = some ⟨some [1, 2], .zero, []⟩ ∧
    Digest.sha (List.flatten [[2], [1]]) ≠ Digest.sha (List.flatten [[1], [2]]) :=
  ⟨(journal_accounting [[1], [2]] .zero [] 0).1,
    (journal_accounting [[1], [2]] .zero [] 0).2.2 [[2], [1]] (by decide)⟩

/-- One `sys_read` call transfers a prefix of the remaining data: at most
the request, at most what remains, and — when the request is positive and
every scheduled chunk is positive — an empty transfer means the stream is
exhausted. -/
theorem sys_read_spec (ch : ReadChannel) (n : Nat)
    (hpos : ∀ c ∈ ch.chunks, 0 < c) (hn : 0 < n) :
    ∃ k, (sys_read ch n).1 = ch.data.take k ∧
      (sys_read ch n).2.data = ch.data.drop k ∧
      k ≤ n ∧ k ≤ ch.data.length ∧
      (∀ c ∈ (sys_read ch n).2.chunks, 0 < c) ∧
      (k = 0 → ch.data = []) ∧
      (ch.chunks = [] → (sys_read ch n).2.chunks = []) := by
  cases hch : ch.chunks with
  | nil =>
    refine ⟨min n ch.data.length, ?_, ?_, ?_, ?_, ?_, ?_, ?_⟩
    · simp [sys_read, hch]
    · simp [sys_read, hch]
    · omega
    · omega
    · simp [sys_read, hch]
    · intro hmin
      have hz : ch.data.length = 0 := by omega
      simpa using hz
    · intro _
      simp [sys_read, hch]
  | cons c cs =>
    have hc : 0 < c := hpos c (by rw [hch]; exact List.mem_cons_self c cs)
    refine ⟨min n (min c ch.data.length), ?_, ?_, ?_, ?_, ?_, ?_, ?_⟩
    · simp [sys_read, hch]
    · simp [sys_read, hch]
    · omega
    · omega
    · intro c2 hc2
      simp only [sys_read, hch] at hc2
      exact hpos c2 (by rw [hch]; exact List.mem_cons_of_mem c hc2)
    · intro hmin
      have hz : ch.data.length = 0 := by omega
      simpa using hz
    · intro habs
      simp_all

/-- `read_bytes_all` retries short reads until the request is filled or the
stream ends: assuming every scheduled host chunk is positive, it returns
exactly the first `n` bytes of the remaining data (all of it when fewer
than `n` remain) and advances the channel past them. -/
theorem read_bytes_all_spec (n : Nat) (ch : ReadChannel)
    (hpos : ∀ c ∈ ch.chunks, 0 < c) :
    (read_bytes_all ch n).1 = ch.data.take n ∧
    (read_bytes_all ch n).2.data = ch.data.drop n ∧
    (∀ c ∈ (read_bytes_all ch n).2.chunks, 0 < c) ∧
    (ch.chunks = [] → (read_bytes_all ch n).2.chunks = []) := by
  induction n using Nat.strong_induction_on generalizing ch with
  | _ n IH =>
    by_cases hn : n = 0
    · subst hn
      rw [read_bytes_all]
      simpa using hpos
    · obtain ⟨k, h1, h2, hkn, hkl, hp2, hk0, hnil⟩ :=
        sys_read_spec ch n hpos (Nat.pos_of_ne_zero hn)
      rw [read_bytes_all]
      rcases hsr : sys_read ch n with ⟨bs, ch1⟩
      rw [hsr] at h1 h2 hp2 hnil
      dsimp only at h1 h2 hp2 hnil
      simp only [hsr, dif_neg hn]
      have hlen : bs.length = k := by
        rw [h1, List.length_take]; omega
      by_cases hb : bs.length = 0
      · have hdata : ch.data = [] := hk0 (by omega)
        rw [dif_pos hb]
        refine ⟨by simp [hdata], ?_, hp2, hnil⟩
        rw [h2, hdata]
        simp
      · rw [dif_neg hb]
        obtain ⟨ih1, ih2, ih3, ih4⟩ := IH (n - bs.length) (by omega) ch1 hp2
        dsimp only
        refine ⟨?_, ?_, ih3, fun hnone => ih4 (hnil hnone)⟩
        · rw [hlen] at ih1
          rw [hlen, ih1, h1, h2, ← List.take_add]
          congr 1
          omega
        · rw [hlen] at ih2
          rw [hlen, ih2, h2, List.drop_drop]
          congr 1
          omega

/-- Equality of read channels follows from equality of the components. -/
theorem ReadChannel.ext_eq (a b : ReadChannel) (h1 : a.data = b.data)
    (h2 : a.chunks = b.chunks) : a = b := by
  cases a; cases b; simp_all

/-- On a channel with no short-read schedule (the host serves each request
in full), `read_bytes_all` returns the first `n` bytes and drops them. -/
theorem read_bytes_all_nil (data : List Nat) (n : Nat) :
    read_bytes_all ⟨data, []⟩ n = (data.take n, ⟨data.drop n, []⟩) := by
  obtain ⟨r1, r2, r3, r4⟩ :=
    read_bytes_all_spec n ⟨data, []⟩ (by intro c hc; simp at hc)
  have r4' := r4 rfl
  cases hx : read_bytes_all ⟨data, []⟩ n with
  | mk a b =>
    rw [hx] at r1 r2 r4'
    cases b
    simp_all

/-- Taking as many bytes as a replicate block is long returns the block. -/
theorem take_replicate_append (k : Nat) (l : List Nat) :
    (List.replicate k (0 : Nat) ++ l).take k = List.replicate k 0 := by
  have h := List.take_left (List.replicate k (0 : Nat)) l
  rwa [List.length_replicate] at h

/-- Dropping as many bytes as a replicate block is long returns the rest. -/
theorem drop_replicate_append (k : Nat) (l : List Nat) :
    (List.replicate k (0 : Nat) ++ l).drop k = l := by
  have h := List.drop_left (List.replicate k (0 : Nat)) l
  rwa [List.length_replicate] at h

/-- On a full-service channel holding the payload, its word padding and a
suffix, `read_padded_bytes` returns exactly the payload and consumes the
padding, leaving the suffix. -/
theorem read_padded_bytes_nil (payload tail0 : List Nat) (pad : Nat)
    (hpad : pad = (WORD_SIZE - payload.length % WORD_SIZE) % WORD_SIZE) :
    read_padded_bytes ⟨payload ++ (List.replicate pad 0 ++ tail0), []⟩
        payload.length = .ok (payload, ⟨tail0, []⟩) := by
  subst hpad
  unfold read_padded_bytes
  rw [read_bytes_all_nil, List.take_left, List.drop_left, if_neg (by simp)]
  by_cases hu : payload.length % WORD_SIZE = 0
  · rw [if_neg (by simp [hu])]
    have hp0 : (WORD_SIZE - payload.length % WORD_SIZE) % WORD_SIZE = 0 := by
      rw [hu]
      decide
    rw [hp0]
    simp
  · rw [if_pos (by simp [hu])]
    have h2 : (WORD_SIZE - payload.length % WORD_SIZE) % WORD_SIZE =
        WORD_SIZE - payload.length % WORD_SIZE := by
      have hlt : payload.length % WORD_SIZE < WORD_SIZE :=
        Nat.mod_lt _ (by decide)
      exact Nat.mod_eq_of_lt (by omega)
    dsimp only
    rw [h2, read_bytes_all_nil, take_replicate_append, drop_replicate_append,
      if_neg (by simp)]

/-- C8: for every byte length (word aligned or not), `write_padded_bytes`
emits exactly the input bytes followed by zero bytes up to the next 4-byte
word boundary, and `read_padded_bytes` on a channel positioned at that data
returns exactly the original bytes, consuming the padding and leaving the
channel advanced to the word boundary (round-trip identity). -/
theorem padded_bytes_roundtrip (bytes suffix : List Nat) :
    write_padded_bytes [] bytes =
      bytes ++ List.replicate ((WORD_SIZE - bytes.length % WORD_SIZE) % WORD_SIZE) 0 ∧
    (write_padded_bytes [] bytes).length % WORD_SIZE = 0 ∧
    (WORD_SIZE - bytes.length % WORD_SIZE) % WORD_SIZE < WORD_SIZE ∧
    read_padded_bytes ⟨write_padded_bytes [] bytes ++ suffix, []⟩ bytes.length =
      .ok (bytes, ⟨suffix, []⟩) := by
  have hwpos : 0 < WORD_SIZE := by decide
  have hpadlt : (WORD_SIZE - bytes.length % WORD_SIZE) % WORD_SIZE < WORD_SIZE :=
    Nat.mod_lt _ hwpos
  have hw : write_padded_bytes [] bytes =
      bytes ++ List.replicate ((WORD_SIZE - bytes.length % WORD_SIZE) % WORD_SIZE) 0 := by
    unfold write_padded_bytes write_bytes
    by_cases hu : bytes.length % WORD_SIZE = 0
    · simp [hu]
    · have h1 : bytes.length % WORD_SIZE < WORD_SIZE := Nat.mod_lt _ hwpos
      have h2 : (WORD_SIZE - bytes.length % WORD_SIZE) % WORD_SIZE =
          WORD_SIZE - bytes.length % WORD_SIZE := Nat.mod_eq_of_lt (by omega)
      simp [hu, h2]
  refine ⟨hw, ?_, hpadlt, ?_⟩
  · rw [hw]
    simp only [List.length_append, List.length_replicate, WORD_SIZE]
    omega
  · rw [hw, List.append_assoc]
    exact read_padded_bytes_nil bytes suffix _ rfl

/-- C9: assuming every host chunk is positive (the host makes progress
whenever data remains), `read_bytes_all` retries short reads until the
request is filled — it returns the first `n` bytes of the stream, the full
request whenever that much data remains — and when the stream ends before
the request is filled, the padded (structured) read path reports
`DeserializeUnexpectedEnd` to its caller. -/
theorem read_underrun_reported (ch : ReadChannel) (n : Nat)
    (hpos : ∀ c ∈ ch.chunks, 0 < c) :
    (read_bytes_all ch n).1 = ch.data.take n ∧
    (n ≤ ch.data.length → (read_bytes_all ch n).1.length = n) ∧
    (ch.data.length < n →
      read_padded_bytes ch n = .error .DeserializeUnexpectedEnd) := by
  obtain ⟨r1, r2, r3, r4⟩ := read_bytes_all_spec n ch hpos
  refine ⟨r1, ?_, ?_⟩
  · intro hle
    rw [r1, List.length_take]
    omega
  · intro hlt
    have hne : (read_bytes_all ch n).1.length ≠ n := by
      rw [r1, List.length_take]; omega
    simp [read_padded_bytes, hne]

/-- Witness for C9: a host that answers a 4-byte request in chunks of 2,
then 1, then the rest still fills the buffer; a stream with only 2 bytes
left makes the padded read report `DeserializeUnexpectedEnd`. -/
theorem read_underrun_reported_witness :
    (read_bytes_all ⟨[1, 2, 3, 4, 5], [2, 1]⟩ 4).1.length = 4 ∧
    read_padded_bytes ⟨[1, 2], [1]⟩ 4 = .error .DeserializeUnexpectedEnd :=
  ⟨(read_underrun_reported ⟨[1, 2, 3, 4, 5], [2, 1]⟩ 4 (by decide)).2.1 (by decide),
    (read_underrun_reported ⟨[1, 2], [1]⟩ 4 (by decide)).2.2 (by decide)⟩

end Risc0Env
